import Mathlib

/-!
Shallow embedding of the in-memory wallet backend (`WalletDatabase` in
`Hackada/backend.py`) together with the validation performed by the app's
dialog handlers (`main` in the same file), and proofs of the
specification claims about it.

Modelling conventions:
* Python `Decimal` and `float` values are modelled by exact rationals
  (`ℚ`); the conversions `Decimal(str(x))` and `float(x)` are treated as
  value-preserving, and the representation (decimal vs binary float) a
  field carries is tracked separately by a `NumRepr` tag.
* `datetime.now().isoformat()` timestamps are modelled as naturals
  supplied by the caller, ordered the way the ISO strings are.
* `uuid.uuid4()` identifiers are modelled as strings supplied by the
  caller; the practical freshness of generated account ids is a
  hypothesis (`FreshOk`) on reachable traces.
* The credential machinery (`password_hash`, `_hash_password`,
  `login_user`) is omitted: the specification declares credential
  verification out of scope for the ledger core.
* Python mutates user records in place; the embedding passes the whole
  store explicitly and replaces the list element the mutated loop
  variable refers to.
-/

/-- Representation of a Python numeric value: an exact `decimal.Decimal`
or an IEEE-754 binary `float`. -/
inductive NumRepr where
  | decimal
  | binaryFloat
deriving DecidableEq

/-- A Python number: its exact value together with its representation tag. -/
structure PyNum where
  val : ℚ
  rep : NumRepr
deriving DecidableEq

/-- Conversion `float(x)`: the value is kept exactly in the model, the
representation becomes binary float. -/
def pyFloat (q : ℚ) : PyNum := ⟨q, .binaryFloat⟩

/-- Sum of two decimals, as in `balance += Decimal(str(amount))`:
a `Decimal` plus a `Decimal` is again a `Decimal`. -/
def decAdd (b : PyNum) (a : ℚ) : PyNum := ⟨b.val + a, .decimal⟩

/-- Difference of two decimals, as in `balance -= Decimal(str(amount))`. -/
def decSub (b : PyNum) (a : ℚ) : PyNum := ⟨b.val - a, .decimal⟩

/-- One value of the `WalletDatabase.users` dict (credential fields
omitted, see the module comment). -/
structure User where
  id : String
  email : String
  full_name : String
  balance : PyNum
deriving DecidableEq

/-- One entry of `WalletDatabase.transactions`. A plain top-up stores
neither e-mail key; the sender half of a transfer stores
`recipient_email`, the recipient half stores `sender_email`, matching the
dict shapes built in `add_money` and `send_money`. -/
structure Tx where
  id : String
  user_id : String
  type : String
  amount : PyNum
  description : String
  recipient_email : Option String
  sender_email : Option String
  timestamp : Nat
  balance_after : PyNum
deriving DecidableEq

/-- The in-memory database: the `users` dict in insertion order, and the
append-only `transactions` list. -/
structure WalletDatabase where
  users : List User
  transactions : List Tx
deriving DecidableEq

/-- The seeded demo account `alice@example.com` with balance 1000.00. -/
def aliceUser : User := ⟨"1", "alice@example.com", "Alice Smith", ⟨1000, .decimal⟩⟩

/-- The seeded demo account `bob@example.com` with balance 500.00. -/
def bobUser : User := ⟨"2", "bob@example.com", "Bob Johnson", ⟨500, .decimal⟩⟩

/-- `WalletDatabase.__init__`: two pre-seeded demo accounts and an empty
transaction log. -/
def initDb : WalletDatabase := ⟨[aliceUser, bobUser], []⟩

/-- Final value of a loop variable that is reassigned on every matching
element: models `for user in users.values(): if p(user): x = user`, where
the last match wins. -/
def lastMatch (p : User → Bool) (l : List User) : Option User :=
  l.foldl (fun acc u => if p u then some u else acc) none

/-- Replace the element that the loop variable of `lastMatch` refers to —
the last element satisfying `p` — by its update; models an in-place
mutation of that dict object. Lists without a match are returned
unchanged. -/
def updateLastBy (p : User → Bool) (f : User → User) : List User → List User
  | [] => []
  | u :: us =>
    if us.any p then u :: updateLastBy p f us
    else if p u then f u :: us
    else u :: us

/-- Loop of `add_money`: walk the users in order and, at the first user
whose id matches, add `amount` to the balance and stop; returns the
updated store together with the new balance value, or `none` when no user
matches. -/
def addFirst (uid : String) (amount : ℚ) : List User → Option (List User × ℚ)
  | [] => none
  | u :: us =>
    if u.id = uid then
      some ({ u with balance := decAdd u.balance amount } :: us, u.balance.val + amount)
    else
      match addFirst uid amount us with
      | none => none
      | some (us2, b) => some (u :: us2, b)

/-- Return shape of `register_user`: the `(user, error)` pair plus the
store after the call. -/
structure RegResult where
  user? : Option User
  err? : Option String
  db : WalletDatabase
deriving DecidableEq

/-- Return shape of `add_money` / `send_money`: the
`(balance, transaction, error)` triple plus the store after the call. -/
structure OpResult where
  balance? : Option PyNum
  tx? : Option Tx
  err? : Option String
  db : WalletDatabase
deriving DecidableEq

/-- `WalletDatabase.register_user` (password handling omitted): reject an
already-registered e-mail, otherwise append a fresh account with balance
`Decimal('0.00')`; `newId` stands for the generated `uuid4` string. -/
def WalletDatabase.register_user (db : WalletDatabase) (email full_name newId : String) :
    RegResult :=
  if db.users.any (fun u => u.email = email) then
    ⟨none, some "Email already registered", db⟩
  else
    let u : User := ⟨newId, email, full_name, ⟨0, .decimal⟩⟩
    ⟨some u, none, ⟨db.users ++ [u], db.transactions⟩⟩

/-- `WalletDatabase.get_balance`: first user whose id matches, else
`Decimal('0.00')`. -/
def WalletDatabase.get_balance (db : WalletDatabase) (uid : String) : PyNum :=
  match db.users.find? (fun u => u.id = uid) with
  | some u => u.balance
  | none => ⟨0, .decimal⟩

/-- `WalletDatabase.add_money`: credit the first user whose id matches and
append one `credit` entry whose `amount` and `balance_after` are stored
through `float(...)`; `txid` stands for the generated `uuid4` string and
`ts` for `datetime.now().isoformat()`. -/
def WalletDatabase.add_money (db : WalletDatabase) (uid : String) (amount : ℚ)
    (txid : String) (ts : Nat) : OpResult :=
  match addFirst uid amount db.users with
  | none => ⟨none, none, some "User not found", db⟩
  | some (users2, newBal) =>
    let tx : Tx :=
      { id := txid, user_id := uid, type := "credit", amount := pyFloat amount,
        description := "Added money to wallet", recipient_email := none,
        sender_email := none, timestamp := ts, balance_after := pyFloat newBal }
    ⟨some ⟨newBal, .decimal⟩, some tx, none, ⟨users2, db.transactions ++ [tx]⟩⟩

/-- `WalletDatabase.send_money`: one pass over the users picks the sender
(by id) and the recipient (by e-mail), then the four guards run in source
order; on success the sender is debited, the recipient credited, and the
two transfer entries are appended together. -/
def WalletDatabase.send_money (db : WalletDatabase) (sender_id recipient_email : String)
    (amount : ℚ) (description : String) (txid1 : String) (ts1 : Nat)
    (txid2 : String) (ts2 : Nat) : OpResult :=
  match lastMatch (fun u => u.id = sender_id) db.users,
        lastMatch (fun u => u.email = recipient_email) db.users with
  | none, _ => ⟨none, none, some "Sender not found", db⟩
  | some _, none => ⟨none, none, some "Recipient not found", db⟩
  | some sender, some recipient =>
    if sender.email = recipient_email then
      ⟨none, none, some "Cannot send money to yourself", db⟩
    else if sender.balance.val < amount then
      ⟨none, none, some "Insufficient balance", db⟩
    else
      let users1 := updateLastBy (fun u => u.id = sender_id)
        (fun u => { u with balance := decSub u.balance amount }) db.users
      let users2 := updateLastBy (fun u => u.email = recipient_email)
        (fun u => { u with balance := decAdd u.balance amount }) users1
      let sender_tx : Tx :=
        { id := txid1, user_id := sender_id, type := "transfer_out",
          amount := pyFloat amount,
          description := if description = "" then "Sent to " ++ recipient_email else description,
          recipient_email := some recipient_email, sender_email := none,
          timestamp := ts1, balance_after := pyFloat (sender.balance.val - amount) }
      let recipient_tx : Tx :=
        { id := txid2, user_id := recipient.id, type := "transfer_in",
          amount := pyFloat amount,
          description := "Received from " ++ sender.email,
          recipient_email := none, sender_email := some sender.email,
          timestamp := ts2, balance_after := pyFloat (recipient.balance.val + amount) }
      ⟨some ⟨sender.balance.val - amount, .decimal⟩, some sender_tx, none,
        ⟨users2, db.transactions ++ [sender_tx, recipient_tx]⟩⟩

/-- Stable insertion into a list already sorted by decreasing timestamp:
the new entry goes after every entry whose timestamp is ≥ its own. This
is how Python's stable `list.sort(key=..., reverse=True)` places each
element relative to earlier-inserted ones. -/
def insertTsDesc (tx : Tx) : List Tx → List Tx
  | [] => [tx]
  | y :: ys => if tx.timestamp ≤ y.timestamp then y :: insertTsDesc tx ys else tx :: y :: ys

/-- Stable sort by decreasing timestamp, inserting the entries in
original (insertion) order. -/
def sortTsDesc (l : List Tx) : List Tx :=
  l.foldl (fun acc tx => insertTsDesc tx acc) []

/-- `WalletDatabase.get_transactions`: the caller's entries, stably
sorted newest-timestamp-first, truncated to `limit` (default 10). -/
def WalletDatabase.get_transactions (db : WalletDatabase) (uid : String)
    (limit : Nat := 10) : List Tx :=
  (sortTsDesc (db.transactions.filter (fun tx => tx.user_id = uid))).take limit

/-- Deposit operation as the app performs it: the `add_money` dialog
handler (`main.show_add_money_dialog.add_money`) rejects a non-positive
amount before the database is touched, then calls
`WalletDatabase.add_money`. -/
def WalletApp.add_money (db : WalletDatabase) (uid : String) (amount : ℚ)
    (txid : String) (ts : Nat) : OpResult :=
  if amount ≤ 0 then ⟨none, none, some "Amount must be positive", db⟩
  else db.add_money uid amount txid ts

/-- Transfer operation as the app performs it: the `send_money` dialog
handler (`main.show_send_money_dialog.send_money`) rejects a non-positive
amount before the database is touched, defaults an empty description to
`"Money transfer"`, then calls `WalletDatabase.send_money`. -/
def WalletApp.send_money (db : WalletDatabase) (sender_id recipient_email : String)
    (amount : ℚ) (description : String) (txid1 : String) (ts1 : Nat)
    (txid2 : String) (ts2 : Nat) : OpResult :=
  if amount ≤ 0 then ⟨none, none, some "Amount must be positive", db⟩
  else db.send_money sender_id recipient_email amount
    (if description = "" then "Money transfer" else description) txid1 ts1 txid2 ts2

/-- One committed-or-attempted operation of the app, with the generated
ids and timestamps made explicit. -/
inductive Op where
  | register (email full_name newId : String)
  | deposit (uid : String) (amount : ℚ) (txid : String) (ts : Nat)
  | send (sender_id recipient_email : String) (amount : ℚ) (description : String)
      (txid1 : String) (ts1 : Nat) (txid2 : String) (ts2 : Nat)

/-- State of the database after attempting an operation (failed
operations return the state unchanged, as every error return in the
source happens before any mutation). -/
def execOp (db : WalletDatabase) : Op → WalletDatabase
  | .register e n i => (db.register_user e n i).db
  | .deposit u a t s => (WalletApp.add_money db u a t s).db
  | .send sid re a d t1 s1 t2 s2 => (WalletApp.send_money db sid re a d t1 s1 t2 s2).db

/-- Error component of an attempted operation. -/
def opErr? (db : WalletDatabase) : Op → Option String
  | .register e n i => (db.register_user e n i).err?
  | .deposit u a t s => (WalletApp.add_money db u a t s).err?
  | .send sid re a d t1 s1 t2 s2 => (WalletApp.send_money db sid re a d t1 s1 t2 s2).err?

/-- Freshness of the generated `uuid4` account id: registration never
reuses an existing account id. Operations that generate only transaction
ids need no assumption for the claims below. -/
def FreshOk (db : WalletDatabase) : Op → Prop
  | .register _ _ i => ∀ u ∈ db.users, u.id ≠ i
  | _ => True

/-- States of the program: everything obtainable from the seeded initial
database by a sequence of attempted operations with fresh generated ids. -/
inductive Reachable : WalletDatabase → Prop where
  | init : Reachable initDb
  | step (op : Op) (db : WalletDatabase) (h : Reachable db) (hf : FreshOk db op) :
      Reachable (execOp db op)

/-- Database after a whole trace of attempted operations. -/
def execTrace (db : WalletDatabase) : List Op → WalletDatabase
  | [] => db
  | op :: ops => execTrace (execOp db op) ops

/-- Sum of the amounts of the deposits of a trace that succeed at the
point where they run. -/
def depositSum (db : WalletDatabase) : List Op → ℚ
  | [] => 0
  | op :: ops =>
    (match op with
      | .deposit _ a _ _ => if opErr? db op = none then a else 0
      | _ => 0) + depositSum (execOp db op) ops

/-- Modelled from the spec: the signed effect of a log entry on its
account's balance — `transfer_out` entries count negatively, `credit` and
`transfer_in` entries positively. -/
def signedAmount (tx : Tx) : ℚ :=
  if tx.type = "transfer_out" then -tx.amount.val else tx.amount.val

/-- Modelled from the spec: replaying an account's log entries and
summing the signed amounts. -/
def replay (txs : List Tx) (uid : String) : ℚ :=
  ((txs.filter (fun tx => tx.user_id = uid)).map signedAmount).sum

/-- Sum of all account balances of the store. -/
def totalBalance (db : WalletDatabase) : ℚ :=
  (db.users.map (fun u => u.balance.val)).sum

/-- Balance an account holds at its creation: the two seeded demo
accounts start at 1000.00 and 500.00, accounts created by
`register_user` start at 0. -/
def seedBalance (uid : String) : ℚ :=
  if uid = "1" then 1000 else if uid = "2" then 500 else 0

/-- Modelled from the spec: the transfer preconditions in the spec's
order — amount positive, sender exists, recipient address resolves,
sender address differs from recipient address, sender balance covers the
amount — with the first failure deciding the reported error. -/
def expectedSendError (db : WalletDatabase) (sender_id recipient_email : String)
    (amount : ℚ) : Option String :=
  if amount ≤ 0 then some "Amount must be positive"
  else
    match (db.users.filter (fun u => u.id = sender_id)).getLast? with
    | none => some "Sender not found"
    | some s =>
      match (db.users.filter (fun u => u.email = recipient_email)).getLast? with
      | none => some "Recipient not found"
      | some _ =>
        if s.email = recipient_email then some "Cannot send money to yourself"
        else if s.balance.val < amount then some "Insufficient balance"
        else none

/-- Shape of the user store across a successful transfer: exactly the two
elements the loop variables referred to are replaced, in whichever
relative order they occur. -/
def TwoUpdate (l l' : List User) (s fs r fr : User) : Prop :=
  (∃ x y z, l = x ++ s :: y ++ r :: z ∧ l' = x ++ fs :: y ++ fr :: z) ∨
  (∃ x y z, l = x ++ r :: y ++ s :: z ∧ l' = x ++ fr :: y ++ fs :: z)

/-- Sortedness by non-increasing timestamp, the order `get_transactions`
returns. -/
def SortedTsDesc (l : List Tx) : Prop :=
  List.Pairwise (fun a b => b.timestamp ≤ a.timestamp) l

/-- Invariant of every reachable database state: balances are
non-negative decimals, account ids are pairwise distinct and contain the
two seeded ids, every balance is its seeded starting value plus the
signed replay of its log entries, every log entry belongs to a stored
account, and every log entry carries a positive amount stored (like its
`balance_after`) as a binary float. -/
def DbInv (db : WalletDatabase) : Prop :=
  (∀ u ∈ db.users, 0 ≤ u.balance.val) ∧
  (db.users.map (fun u => u.id)).Nodup ∧
  "1" ∈ db.users.map (fun u => u.id) ∧
  "2" ∈ db.users.map (fun u => u.id) ∧
  (∀ u ∈ db.users, u.balance.val = seedBalance u.id + replay db.transactions u.id) ∧
  (∀ tx ∈ db.transactions, tx.user_id ∈ db.users.map (fun u => u.id)) ∧
  (∀ tx ∈ db.transactions, 0 < tx.amount.val ∧ tx.amount.rep = .binaryFloat ∧
    tx.balance_after.rep = .binaryFloat) ∧
  (∀ u ∈ db.users, u.balance.rep = .decimal)

/-- `lastMatch` examined element by element from the right. -/
theorem lastMatch_append_singleton (p : User → Bool) (l : List User) (u : User) :
    lastMatch p (l ++ [u]) = if p u then some u else lastMatch p l := by
  simp [lastMatch, List.foldl_append]

/-- `lastMatch` misses exactly when no element matches. -/
theorem lastMatch_eq_none (p : User → Bool) (l : List User) :
    lastMatch p l = none ↔ ∀ v ∈ l, p v = false := by
  induction l using List.reverseRecOn with
  | nil => simp [lastMatch]
  | append_singleton l u ih =>
    rw [lastMatch_append_singleton]
    by_cases hp : p u
    · simp only [if_pos hp]
      simp only [List.mem_append, List.mem_singleton]
      constructor
      · intro h
        cases h
      · intro h
        exact absurd (h u (Or.inr rfl)) (by simp [hp])
    · simp only [if_neg hp, ih, List.mem_append, List.mem_singleton]
      constructor
      · intro h v hv
        rcases hv with hv | rfl
        · exact h v hv
        · exact Bool.eq_false_iff.mpr hp
      · intro h v hv
        exact h v (Or.inl hv)

/-- `lastMatch` returns the last matching element: the list splits around
the result, with no match after it. -/
theorem lastMatch_eq_some (p : User → Bool) (l : List User) (u : User)
    (h : lastMatch p l = some u) :
    ∃ l₁ l₂, l = l₁ ++ u :: l₂ ∧ p u = true ∧ ∀ v ∈ l₂, p v = false := by
  induction l using List.reverseRecOn with
  | nil => simp [lastMatch] at h
  | append_singleton l w ih =>
    rw [lastMatch_append_singleton] at h
    by_cases hp : p w
    · rw [if_pos hp] at h
      obtain rfl : w = u := Option.some.inj h
      exact ⟨l, [], by simp, hp, by simp⟩
    · rw [if_neg hp] at h
      obtain ⟨l₁, l₂, rfl, hu, h₂⟩ := ih h
      refine ⟨l₁, l₂ ++ [w], by simp, hu, ?_⟩
      intro v hv
      rcases List.mem_append.mp hv with hv | hv
      · exact h₂ v hv
      · simpa [List.mem_singleton.mp hv] using (Bool.of_not_eq_true hp)

/-- Membership form of `lastMatch_eq_some`. -/
theorem lastMatch_mem (p : User → Bool) (l : List User) (u : User)
    (h : lastMatch p l = some u) : u ∈ l ∧ p u = true := by
  obtain ⟨l₁, l₂, rfl, hu, _⟩ := lastMatch_eq_some p l u h
  exact ⟨by simp, hu⟩

/-- `lastMatch` agrees with taking the last element of the filtered
list, the reading the specification uses. -/
theorem lastMatch_eq_getLast?_filter (p : User → Bool) (l : List User) :
    lastMatch p l = (l.filter p).getLast? := by
  induction l using List.reverseRecOn with
  | nil => simp [lastMatch]
  | append_singleton l u ih =>
    rw [lastMatch_append_singleton, List.filter_append]
    by_cases hp : p u <;> simp [hp, ih, List.getLast?_concat]

/-- A store without a match is left unchanged by `updateLastBy`. -/
theorem updateLastBy_no_match (p : User → Bool) (f : User → User) (l : List User)
    (h : ∀ v ∈ l, p v = false) : updateLastBy p f l = l := by
  cases l with
  | nil => rfl
  | cons u us =>
    have hany : us.any p = false := by
      rw [List.any_eq_false]
      intro x hx
      simp [h x (List.mem_cons_of_mem _ hx)]
    have hu : p u = false := h u (by simp)
    simp [updateLastBy, hany, hu]

/-- `updateLastBy` rewrites exactly the last matching element. -/
theorem updateLastBy_decomp (p : User → Bool) (f : User → User) (u : User) :
    ∀ (l₁ l₂ : List User), p u = true → (∀ v ∈ l₂, p v = false) →
      updateLastBy p f (l₁ ++ u :: l₂) = l₁ ++ f u :: l₂
  | [], l₂, hu, h₂ => by
    have hany : l₂.any p = false := by
      rw [List.any_eq_false]
      intro x hx
      simp [h₂ x hx]
    simp [updateLastBy, hany, hu]
  | w :: l₁, l₂, hu, h₂ => by
    have hany : (l₁ ++ u :: l₂).any p = true :=
      List.any_eq_true.mpr ⟨u, by simp, hu⟩
    show updateLastBy p f (w :: (l₁ ++ u :: l₂)) = w :: (l₁ ++ f u :: l₂)
    simp [updateLastBy, hany, updateLastBy_decomp p f u l₁ l₂ hu h₂]

/-- Two distinct marked elements of one list yield a combined split. -/
theorem two_split {α : Type} {a b c d : List α} {s r : α}
    (h : a ++ s :: b = c ++ r :: d) (hne : s ≠ r) :
    (∃ m, c = a ++ s :: m ∧ b = m ++ r :: d) ∨
    (∃ m, a = c ++ r :: m ∧ d = m ++ s :: b) := by
  rcases List.append_eq_append_iff.mp h with ⟨a', hc, hb⟩ | ⟨c', ha, hd⟩
  · cases a' with
    | nil => simp at hb; exact absurd hb.1 hne
    | cons x xs =>
      simp at hb
      obtain ⟨rfl, hb2⟩ := hb
      exact .inl ⟨xs, by simpa using hc, hb2⟩
  · cases c' with
    | nil => simp at hd; exact absurd hd.1.symm hne
    | cons x xs =>
      simp at hd
      obtain ⟨rfl, hd2⟩ := hd
      exact .inr ⟨xs, by simpa using ha, hd2⟩

/-- Unfolding of `addFirst` on a nonempty store. -/
theorem addFirst_cons (uid : String) (amount : ℚ) (u : User) (us : List User) :
    addFirst uid amount (u :: us) =
      if u.id = uid then
        some ({ u with balance := decAdd u.balance amount } :: us, u.balance.val + amount)
      else
        match addFirst uid amount us with
        | none => none
        | some (us2, b) => some (u :: us2, b) := rfl

/-- `addFirst` hits exactly the first matching user: the store splits
around it, with no earlier match, and only that element changes. -/
theorem addFirst_eq_some (uid : String) (amount : ℚ) :
    ∀ (l l' : List User) (b : ℚ), addFirst uid amount l = some (l', b) →
      ∃ l₁ u l₂, l = l₁ ++ u :: l₂ ∧ u.id = uid ∧ (∀ v ∈ l₁, v.id ≠ uid) ∧
        l' = l₁ ++ { u with balance := decAdd u.balance amount } :: l₂ ∧
        b = u.balance.val + amount
  | [], l', b, h => by simp [addFirst] at h
  | u :: us, l', b, h => by
    rw [addFirst_cons] at h
    by_cases hid : u.id = uid
    · rw [if_pos hid] at h
      simp only [Option.some.injEq, Prod.mk.injEq] at h
      obtain ⟨h1, h2⟩ := h
      exact ⟨[], u, us, by simp, hid, by simp, h1.symm, h2.symm⟩
    · rw [if_neg hid] at h
      cases haf : addFirst uid amount us with
      | none =>
        rw [haf] at h
        exact Option.noConfusion h
      | some pr =>
        obtain ⟨us2, b2⟩ := pr
        rw [haf] at h
        simp only [Option.some.injEq, Prod.mk.injEq] at h
        obtain ⟨h1, h2⟩ := h
        obtain ⟨l₁, w, l₂, hl, hw, hl₁, hl', hb⟩ := addFirst_eq_some uid amount us us2 b2 haf
        refine ⟨u :: l₁, w, l₂, by simp [hl], hw, ?_, ?_, ?_⟩
        · intro v hv
          rcases List.mem_cons.mp hv with rfl | hv
          · exact hid
          · exact hl₁ v hv
        · rw [← h1, hl']
          simp
        · rw [← h2, hb]

/-- Elements after a transfer's double update. -/
theorem TwoUpdate.mem_dst {l l' : List User} {s fs r fr : User}
    (h : TwoUpdate l l' s fs r fr) : ∀ v ∈ l', v = fs ∨ v = fr ∨ v ∈ l := by
  rcases h with ⟨x, y, z, hl, hl'⟩ | ⟨x, y, z, hl, hl'⟩ <;> subst hl hl' <;>
    intro v hv <;> simp only [List.mem_append, List.mem_cons] at hv ⊢ <;> tauto

/-- Both updated elements come from the original store. -/
theorem TwoUpdate.mem_src {l l' : List User} {s fs r fr : User}
    (h : TwoUpdate l l' s fs r fr) : s ∈ l ∧ r ∈ l := by
  rcases h with ⟨x, y, z, hl, _⟩ | ⟨x, y, z, hl, _⟩ <;> subst hl <;> constructor <;> simp

/-- Effect of a transfer's double update on a mapped sum. -/
theorem TwoUpdate.sum_map {l l' : List User} {s fs r fr : User} (g : User → ℚ)
    (h : TwoUpdate l l' s fs r fr) :
    (l'.map g).sum = (l.map g).sum - g s - g r + g fs + g fr := by
  rcases h with ⟨x, y, z, hl, hl'⟩ | ⟨x, y, z, hl, hl'⟩ <;> subst hl hl' <;>
    simp only [List.map_append, List.map_cons, List.sum_append, List.sum_cons] <;> ring

/-- A map that does not distinguish the updated elements from their
originals is unchanged by the double update. -/
theorem TwoUpdate.map_eq {l l' : List User} {s fs r fr : User} {α : Type} (g : User → α)
    (h : TwoUpdate l l' s fs r fr) (hs : g fs = g s) (hr : g fr = g r) :
    l'.map g = l.map g := by
  rcases h with ⟨x, y, z, hl, hl'⟩ | ⟨x, y, z, hl, hl'⟩ <;> subst hl hl' <;>
    simp [hs, hr]

/-- In a store with pairwise-distinct ids, every element other than the
two marked ones has an id different from both. -/
theorem nodup_two_split {x y z : List User} {a b : User}
    (hn : ((x ++ a :: y ++ b :: z).map (fun u => u.id)).Nodup) :
    a.id ≠ b.id ∧ ∀ v, (v ∈ x ∨ v ∈ y ∨ v ∈ z) → v.id ≠ a.id ∧ v.id ≠ b.id := by
  simp only [List.map_append, List.map_cons, List.nodup_append, List.nodup_cons,
    List.mem_append, List.mem_cons, List.disjoint_left, not_or] at hn
  obtain ⟨⟨-, ⟨haY, -⟩, hXd⟩, ⟨hbZ, -⟩, hBig⟩ := hn
  refine ⟨(hBig (Or.inr (Or.inl rfl))).1, ?_⟩
  intro v hv
  rcases hv with hv | hv | hv
  · have hm : v.id ∈ x.map (fun u => u.id) := List.mem_map_of_mem _ hv
    exact ⟨(hXd hm).1, (hBig (Or.inl hm)).1⟩
  · have hm : v.id ∈ y.map (fun u => u.id) := List.mem_map_of_mem _ hv
    exact ⟨fun he => haY (he ▸ hm), (hBig (Or.inr (Or.inr hm))).1⟩
  · have hm : v.id ∈ z.map (fun u => u.id) := List.mem_map_of_mem _ hv
    exact ⟨fun he => (hBig (Or.inr (Or.inl rfl))).2 (he ▸ hm),
      fun he => hbZ (he ▸ hm)⟩

/-- In a store with pairwise-distinct ids, every element other than the
marked one has a different id. -/
theorem nodup_one_split {x z : List User} {a : User}
    (hn : ((x ++ a :: z).map (fun u => u.id)).Nodup) :
    ∀ v, (v ∈ x ∨ v ∈ z) → v.id ≠ a.id := by
  simp only [List.map_append, List.map_cons, List.nodup_append, List.nodup_cons,
    List.mem_append, List.mem_cons, List.disjoint_left, not_or] at hn
  obtain ⟨-, ⟨haZ, -⟩, hXd⟩ := hn
  intro v hv
  rcases hv with hv | hv
  · exact (hXd (List.mem_map_of_mem _ hv)).1
  · exact fun he => haZ (he ▸ List.mem_map_of_mem _ hv)

/-- Replay distributes over appending log entries. -/
theorem replay_append (txs l : List Tx) (uid : String) :
    replay (txs ++ l) uid = replay txs uid + replay l uid := by
  simp [replay, List.filter_append]

/-- Replay of a single log entry. -/
theorem replay_single (tx : Tx) (uid : String) :
    replay [tx] uid = if tx.user_id = uid then signedAmount tx else 0 := by
  by_cases h : tx.user_id = uid <;> simp [replay, h]

/-- Failed registration leaves the database unchanged. -/
theorem register_user_err_db (db : WalletDatabase) (e n i : String)
    (h : (db.register_user e n i).err? ≠ none) : (db.register_user e n i).db = db := by
  by_cases hc : db.users.any (fun u => u.email = e)
  · simp [WalletDatabase.register_user, hc]
  · simp [WalletDatabase.register_user, hc] at h

/-- Failed `add_money` leaves the database unchanged. -/
theorem add_money_err_db (db : WalletDatabase) (uid : String) (amount : ℚ)
    (txid : String) (ts : Nat) (h : (db.add_money uid amount txid ts).err? ≠ none) :
    (db.add_money uid amount txid ts).db = db := by
  cases haf : addFirst uid amount db.users with
  | none => simp [WalletDatabase.add_money, haf]
  | some pr =>
    obtain ⟨us2, b⟩ := pr
    simp [WalletDatabase.add_money, haf] at h

/-- Failed `send_money` leaves the database unchanged. -/
theorem send_money_err_db (db : WalletDatabase) (sid re : String) (amount : ℚ)
    (d t1 : String) (s1 : Nat) (t2 : String) (s2 : Nat)
    (h : (db.send_money sid re amount d t1 s1 t2 s2).err? ≠ none) :
    (db.send_money sid re amount d t1 s1 t2 s2).db = db := by
  cases hs : lastMatch (fun u => u.id = sid) db.users with
  | none => simp [WalletDatabase.send_money, hs]
  | some s =>
    cases hr : lastMatch (fun u => u.email = re) db.users with
    | none => simp [WalletDatabase.send_money, hs, hr]
    | some r =>
      by_cases hse : s.email = re
      · simp [WalletDatabase.send_money, hs, hr, hse]
      · by_cases hb : s.balance.val < amount
        · simp [WalletDatabase.send_money, hs, hr, hse, hb]
        · simp [WalletDatabase.send_money, hs, hr, hse, hb] at h

/-- Failed app-level deposit leaves the database unchanged. -/
theorem app_add_money_err_db (db : WalletDatabase) (uid : String) (amount : ℚ)
    (txid : String) (ts : Nat) (h : (WalletApp.add_money db uid amount txid ts).err? ≠ none) :
    (WalletApp.add_money db uid amount txid ts).db = db := by
  by_cases ha : amount ≤ 0
  · simp [WalletApp.add_money, ha]
  · simp only [WalletApp.add_money, if_neg ha] at h ⊢
    exact add_money_err_db db uid amount txid ts h

/-- Failed app-level transfer leaves the database unchanged. -/
theorem app_send_money_err_db (db : WalletDatabase) (sid re : String) (amount : ℚ)
    (d t1 : String) (s1 : Nat) (t2 : String) (s2 : Nat)
    (h : (WalletApp.send_money db sid re amount d t1 s1 t2 s2).err? ≠ none) :
    (WalletApp.send_money db sid re amount d t1 s1 t2 s2).db = db := by
  by_cases ha : amount ≤ 0
  · simp [WalletApp.send_money, ha]
  · simp only [WalletApp.send_money, if_neg ha] at h ⊢
    exact send_money_err_db db sid re amount _ t1 s1 t2 s2 h

/-- Any operation that reports an error has no effect on the database. -/
theorem op_err_no_change (db : WalletDatabase) (op : Op) (h : opErr? db op ≠ none) :
    execOp db op = db := by
  cases op with
  | register e n i => exact register_user_err_db db e n i h
  | deposit u a t s => exact app_add_money_err_db db u a t s h
  | send sid re a d t1 s1 t2 s2 => exact app_send_money_err_db db sid re a d t1 s1 t2 s2 h

/-- Successful `add_money` splits the store around the first user with
the requested id, credits exactly that user, and appends exactly one
`credit` entry for it. -/
theorem add_money_ok (db : WalletDatabase) (uid : String) (amount : ℚ) (txid : String)
    (ts : Nat) (h : (db.add_money uid amount txid ts).err? = none) :
    ∃ l₁ u l₂,
      db.users = l₁ ++ u :: l₂ ∧ u.id = uid ∧ (∀ v ∈ l₁, v.id ≠ uid) ∧
      (db.add_money uid amount txid ts).db.users =
        l₁ ++ { u with balance := decAdd u.balance amount } :: l₂ ∧
      (db.add_money uid amount txid ts).db.transactions = db.transactions ++
        [{ id := txid, user_id := uid, type := "credit", amount := pyFloat amount,
           description := "Added money to wallet", recipient_email := none,
           sender_email := none, timestamp := ts,
           balance_after := pyFloat (u.balance.val + amount) }] ∧
      (db.add_money uid amount txid ts).balance? = some ⟨u.balance.val + amount, .decimal⟩ := by
  cases haf : addFirst uid amount db.users with
  | none => simp [WalletDatabase.add_money, haf] at h
  | some pr =>
    obtain ⟨us2, b⟩ := pr
    obtain ⟨l₁, u, l₂, hl, hu, hl₁, hus, hb⟩ := addFirst_eq_some uid amount db.users us2 b haf
    refine ⟨l₁, u, l₂, hl, hu, hl₁, ?_, ?_, ?_⟩ <;>
      simp [WalletDatabase.add_money, haf, hus, hb]

/-- Successful `send_money` returns both looked-up parties, passes all
guards, performs exactly the two balance updates, and appends exactly the
two paired transfer entries. -/
theorem send_money_ok (db : WalletDatabase) (sid re : String) (amount : ℚ)
    (d t1 : String) (s1 : Nat) (t2 : String) (s2 : Nat)
    (h : (db.send_money sid re amount d t1 s1 t2 s2).err? = none) :
    ∃ s r, lastMatch (fun u => u.id = sid) db.users = some s ∧
      lastMatch (fun u => u.email = re) db.users = some r ∧
      s.id = sid ∧ r.email = re ∧ s.email ≠ re ∧ amount ≤ s.balance.val ∧
      TwoUpdate db.users (db.send_money sid re amount d t1 s1 t2 s2).db.users
        s { s with balance := decSub s.balance amount }
        r { r with balance := decAdd r.balance amount } ∧
      (db.send_money sid re amount d t1 s1 t2 s2).db.transactions =
        db.transactions ++
          [{ id := t1, user_id := sid, type := "transfer_out", amount := pyFloat amount,
             description := if d = "" then "Sent to " ++ re else d,
             recipient_email := some re, sender_email := none, timestamp := s1,
             balance_after := pyFloat (s.balance.val - amount) },
           { id := t2, user_id := r.id, type := "transfer_in", amount := pyFloat amount,
             description := "Received from " ++ s.email,
             recipient_email := none, sender_email := some s.email, timestamp := s2,
             balance_after := pyFloat (r.balance.val + amount) }] ∧
      (db.send_money sid re amount d t1 s1 t2 s2).balance? =
        some ⟨s.balance.val - amount, .decimal⟩ := by
  cases hs : lastMatch (fun u => u.id = sid) db.users with
  | none => simp [WalletDatabase.send_money, hs] at h
  | some s =>
    cases hr : lastMatch (fun u => u.email = re) db.users with
    | none => simp [WalletDatabase.send_money, hs, hr] at h
    | some r =>
      by_cases hse : s.email = re
      · simp [WalletDatabase.send_money, hs, hr, hse] at h
      · by_cases hb : s.balance.val < amount
        · simp [WalletDatabase.send_money, hs, hr, hse, hb] at h
        · obtain ⟨a, b', hab, hps, hnops⟩ := lastMatch_eq_some _ _ s hs
          obtain ⟨c, d', hcd, hpr, hnopr⟩ := lastMatch_eq_some _ _ r hr
          have hsid : s.id = sid := by simpa using hps
          have hremail : r.email = re := by simpa using hpr
          have hsr : s ≠ r := fun he => hse (he ▸ hremail)
          have hnops' : ∀ v ∈ b', (fun u => decide (u.id = sid)) v = false := hnops
          have hnopr' : ∀ v ∈ d', (fun u => decide (u.email = re)) v = false := hnopr
          have husers :
              (db.send_money sid re amount d t1 s1 t2 s2).db.users =
                updateLastBy (fun u => u.email = re)
                  (fun u => { u with balance := decAdd u.balance amount })
                  (updateLastBy (fun u => u.id = sid)
                    (fun u => { u with balance := decSub u.balance amount }) db.users) := by
            simp [WalletDatabase.send_money, hs, hr, hse, hb]
          refine ⟨s, r, rfl, rfl, hsid, hremail, hse, not_lt.mp hb, ?_, ?_, ?_⟩
          · rw [husers]
            have heq : a ++ s :: b' = c ++ r :: d' := hab ▸ hcd
            rcases two_split heq hsr with ⟨m, hc, hb2⟩ | ⟨m, ha2, hd2⟩
            · -- sender occurs before recipient
              have hstep1 : updateLastBy (fun u => u.id = sid)
                  (fun u => { u with balance := decSub u.balance amount }) db.users =
                  a ++ { s with balance := decSub s.balance amount } :: b' := by
                rw [hab]
                exact updateLastBy_decomp _ _ s a b' hps hnops
              have hstep2 : updateLastBy (fun u => u.email = re)
                  (fun u => { u with balance := decAdd u.balance amount })
                  (a ++ { s with balance := decSub s.balance amount } :: b') =
                  a ++ { s with balance := decSub s.balance amount } :: m ++
                    { r with balance := decAdd r.balance amount } :: d' := by
                rw [hb2]
                have hassoc : a ++ { s with balance := decSub s.balance amount } ::
                      (m ++ r :: d') =
                    (a ++ { s with balance := decSub s.balance amount } :: m) ++ r :: d' := by
                  simp
                rw [hassoc, updateLastBy_decomp _ _ r _ d' hpr hnopr]
              rw [hstep1, hstep2]
              exact .inl ⟨a, m, d', by rw [hab, hb2]; simp, rfl⟩
            · -- recipient occurs before sender
              have hstep1 : updateLastBy (fun u => u.id = sid)
                  (fun u => { u with balance := decSub u.balance amount }) db.users =
                  c ++ r :: m ++ { s with balance := decSub s.balance amount } :: b' := by
                rw [hab, ha2, updateLastBy_decomp _ _ s _ b' hps hnops]
              have hd'mem : ∀ w, w ∈ (m ++ s :: b' : List User) →
                  decide (w.email = re) = false := by
                intro w hw
                apply hnopr' w
                rw [hd2]
                exact hw
              have hnop2 : ∀ v ∈ m ++ { s with balance := decSub s.balance amount } :: b',
                  (fun u => decide (u.email = re)) v = false := by
                intro v hv
                rcases List.mem_append.mp hv with hv | hv
                · exact hd'mem v (List.mem_append_left _ hv)
                · rcases List.mem_cons.mp hv with rfl | hv
                  · exact hd'mem s (by simp)
                  · exact hd'mem v (by simp [hv])
              have hstep2 : updateLastBy (fun u => u.email = re)
                  (fun u => { u with balance := decAdd u.balance amount })
                  (c ++ r :: m ++ { s with balance := decSub s.balance amount } :: b') =
                  c ++ { r with balance := decAdd r.balance amount } :: m ++
                    { s with balance := decSub s.balance amount } :: b' := by
                have h1 : c ++ r :: m ++ { s with balance := decSub s.balance amount } :: b' =
                    c ++ r :: (m ++ { s with balance := decSub s.balance amount } :: b') := by
                  simp
                rw [h1, updateLastBy_decomp _ _ r c _ hpr hnop2]
                simp
              rw [hstep1, hstep2]
              exact .inr ⟨c, m, b', by rw [hab, ha2], rfl⟩
          · simp [WalletDatabase.send_money, hs, hr, hse, hb]
          · simp [WalletDatabase.send_money, hs, hr, hse, hb]

/-- Successful registration appends exactly one zero-balance account and
does not touch the log. -/
theorem register_user_ok (db : WalletDatabase) (e n i : String)
    (h : (db.register_user e n i).err? = none) :
    (∀ u ∈ db.users, u.email ≠ e) ∧
    (db.register_user e n i).db.users = db.users ++ [⟨i, e, n, ⟨0, .decimal⟩⟩] ∧
    (db.register_user e n i).db.transactions = db.transactions := by
  by_cases hc : db.users.any (fun u => u.email = e)
  · simp [WalletDatabase.register_user, hc] at h
  · have hfalse : db.users.any (fun u => u.email = e) = false := by simpa using hc
    refine ⟨?_, ?_, ?_⟩
    · intro u hu he
      exact (List.any_eq_false.mp hfalse u hu) (by simp [he])
    · simp [WalletDatabase.register_user, hc]
    · simp [WalletDatabase.register_user, hc]

/-- Identifier facts across a transfer's double update, derived from
distinctness of the stored ids. -/
theorem TwoUpdate.pointwise {l l' : List User} {s fs r fr : User}
    (h : TwoUpdate l l' s fs r fr) (hn : (l.map (fun u => u.id)).Nodup) :
    s.id ≠ r.id ∧
      ∀ v ∈ l', v = fs ∨ v = fr ∨ (v ∈ l ∧ v.id ≠ s.id ∧ v.id ≠ r.id) := by
  rcases h with ⟨x, y, z, hl, hl'⟩ | ⟨x, y, z, hl, hl'⟩
  · subst hl hl'
    obtain ⟨hab, hrest⟩ := nodup_two_split hn
    refine ⟨hab, ?_⟩
    intro v hv
    simp only [List.mem_append, List.mem_cons] at hv
    rcases hv with (hv | hv | hv) | hv | hv
    · exact .inr (.inr ⟨by simp [hv], (hrest v (.inl hv)).1, (hrest v (.inl hv)).2⟩)
    · exact .inl hv
    · exact .inr (.inr ⟨by simp [hv], (hrest v (.inr (.inl hv))).1,
        (hrest v (.inr (.inl hv))).2⟩)
    · exact .inr (.inl hv)
    · exact .inr (.inr ⟨by simp [hv], (hrest v (.inr (.inr hv))).1,
        (hrest v (.inr (.inr hv))).2⟩)
  · subst hl hl'
    obtain ⟨hab, hrest⟩ := nodup_two_split hn
    refine ⟨hab.symm, ?_⟩
    intro v hv
    simp only [List.mem_append, List.mem_cons] at hv
    rcases hv with (hv | hv | hv) | hv | hv
    · exact .inr (.inr ⟨by simp [hv], (hrest v (.inl hv)).2, (hrest v (.inl hv)).1⟩)
    · exact .inr (.inl hv)
    · exact .inr (.inr ⟨by simp [hv], (hrest v (.inr (.inl hv))).2,
        (hrest v (.inr (.inl hv))).1⟩)
    · exact .inl hv
    · exact .inr (.inr ⟨by simp [hv], (hrest v (.inr (.inr hv))).2,
        (hrest v (.inr (.inr hv))).1⟩)

/-- Registration with a fresh generated id preserves the database
invariant. -/
theorem dbInv_register (db : WalletDatabase) (e n i : String) (hInv : DbInv db)
    (hf : ∀ u ∈ db.users, u.id ≠ i) : DbInv (db.register_user e n i).db := by
  by_cases hc : (db.register_user e n i).err? = none
  case neg =>
    rw [register_user_err_db db e n i hc]
    exact hInv
  case pos =>
    obtain ⟨-, hus, htx⟩ := register_user_ok db e n i hc
    obtain ⟨h1, h2, h3, h4, h5, h6, h7, h8⟩ := hInv
    have hi1 : i ≠ "1" := by
      obtain ⟨w, hw, hwid⟩ := List.mem_map.mp h3
      exact fun he => hf w hw (by rw [hwid, he])
    have hi2 : i ≠ "2" := by
      obtain ⟨w, hw, hwid⟩ := List.mem_map.mp h4
      exact fun he => hf w hw (by rw [hwid, he])
    have hrep : replay db.transactions i = 0 := by
      have hfil : db.transactions.filter (fun tx => tx.user_id = i) = [] := by
        rw [List.filter_eq_nil_iff]
        intro tx htx'
        simp only [decide_eq_true_eq]
        intro he
        have hms := h6 tx htx'
        rw [he] at hms
        obtain ⟨w, hw, hwid⟩ := List.mem_map.mp hms
        exact hf w hw hwid
      simp [replay, hfil]
    refine ⟨?_, ?_, ?_, ?_, ?_, ?_, ?_, ?_⟩
    · intro u hu
      rw [hus] at hu
      rcases List.mem_append.mp hu with hu | hu
      · exact h1 u hu
      · rw [List.mem_singleton.mp hu]
    · rw [hus, List.map_append]
      refine List.nodup_append.mpr ⟨h2, by simp, ?_⟩
      intro x hx
      obtain ⟨w, hw, rfl⟩ := List.mem_map.mp hx
      simp only [List.map_cons, List.map_nil, List.mem_singleton]
      exact hf w hw
    · rw [hus, List.map_append]
      exact List.mem_append_left _ h3
    · rw [hus, List.map_append]
      exact List.mem_append_left _ h4
    · intro u hu
      rw [hus] at hu
      rw [htx]
      rcases List.mem_append.mp hu with hu | hu
      · exact h5 u hu
      · rw [List.mem_singleton.mp hu]
        simp [seedBalance, hi1, hi2, hrep]
    · intro tx htx'
      rw [htx] at htx'
      rw [hus, List.map_append]
      exact List.mem_append_left _ (h6 tx htx')
    · intro tx htx'
      rw [htx] at htx'
      exact h7 tx htx'
    · intro u hu
      rw [hus] at hu
      rcases List.mem_append.mp hu with hu | hu
      · exact h8 u hu
      · rw [List.mem_singleton.mp hu]

/-- An app-level deposit preserves the database invariant. -/
theorem dbInv_deposit (db : WalletDatabase) (uid : String) (amount : ℚ)
    (txid : String) (ts : Nat) (hInv : DbInv db) :
    DbInv (WalletApp.add_money db uid amount txid ts).db := by
  by_cases hc : (WalletApp.add_money db uid amount txid ts).err? = none
  case neg =>
    rw [app_add_money_err_db db uid amount txid ts hc]
    exact hInv
  case pos =>
    by_cases ha : amount ≤ 0
    · exact absurd hc (by simp [WalletApp.add_money, ha])
    have hamt : 0 < amount := lt_of_not_le ha
    have hc' : (db.add_money uid amount txid ts).err? = none := by
      simpa [WalletApp.add_money, ha] using hc
    have happ : (WalletApp.add_money db uid amount txid ts).db =
        (db.add_money uid amount txid ts).db := by
      simp [WalletApp.add_money, ha]
    rw [happ]
    obtain ⟨l₁, u, l₂, hl, hu, -, hus, htx, -⟩ := add_money_ok db uid amount txid ts hc'
    obtain ⟨h1, h2, h3, h4, h5, h6, h7, h8⟩ := hInv
    have hid_ne : ∀ v, (v ∈ l₁ ∨ v ∈ l₂) → v.id ≠ u.id :=
      nodup_one_split (by rw [← hl]; exact h2)
    have humem : u ∈ db.users := by rw [hl]; simp
    have hmem₁ : ∀ v ∈ l₁, v ∈ db.users := fun v hv => by rw [hl]; simp [hv]
    have hmem₂ : ∀ v ∈ l₂, v ∈ db.users := fun v hv => by rw [hl]; simp [hv]
    have hmap : (l₁ ++ { u with balance := decAdd u.balance amount } :: l₂).map
        (fun v => v.id) = db.users.map (fun v => v.id) := by
      rw [hl]
      simp
    have hrep_other : ∀ w : String, w ≠ uid →
        replay (db.add_money uid amount txid ts).db.transactions w =
          replay db.transactions w := by
      intro w hw
      rw [htx, replay_append, replay_single]
      simp
      intro h
      exact absurd h.symm hw
    have hrep_u : replay (db.add_money uid amount txid ts).db.transactions uid =
        replay db.transactions uid + amount := by
      rw [htx, replay_append, replay_single]
      simp [signedAmount, pyFloat]
    refine ⟨?_, ?_, ?_, ?_, ?_, ?_, ?_, ?_⟩
    · intro v hv
      rw [hus] at hv
      rcases List.mem_append.mp hv with hv | hv
      · exact h1 v (hmem₁ v hv)
      · rcases List.mem_cons.mp hv with rfl | hv
        · have := h1 u humem
          simp only [decAdd]
          positivity
        · exact h1 v (hmem₂ v hv)
    · rw [hus, hmap]
      exact h2
    · rw [hus, hmap]
      exact h3
    · rw [hus, hmap]
      exact h4
    · intro v hv
      rw [hus] at hv
      rcases List.mem_append.mp hv with hv | hv
      · have hvid : v.id ≠ uid := hu ▸ hid_ne v (.inl hv)
        rw [hrep_other v.id hvid]
        exact h5 v (hmem₁ v hv)
      · rcases List.mem_cons.mp hv with rfl | hv
        · simp only [decAdd]
          rw [show ({ u with balance := decAdd u.balance amount } : User).id = u.id from rfl]
          rw [hu, hrep_u, ← hu]
          have := h5 u humem
          rw [this]
          ring
        · have hvid : v.id ≠ uid := hu ▸ hid_ne v (.inr hv)
          rw [hrep_other v.id hvid]
          exact h5 v (hmem₂ v hv)
    · intro tx htx'
      rw [htx] at htx'
      rw [hus, hmap]
      rcases List.mem_append.mp htx' with htx' | htx'
      · exact h6 tx htx'
      · rw [List.mem_singleton.mp htx']
        rw [← hu]
        exact List.mem_map_of_mem _ humem
    · intro tx htx'
      rw [htx] at htx'
      rcases List.mem_append.mp htx' with htx' | htx'
      · exact h7 tx htx'
      · rw [List.mem_singleton.mp htx']
        exact ⟨hamt, rfl, rfl⟩
    · intro v hv
      rw [hus] at hv
      rcases List.mem_append.mp hv with hv | hv
      · exact h8 v (hmem₁ v hv)
      · rcases List.mem_cons.mp hv with rfl | hv
        · rfl
        · exact h8 v (hmem₂ v hv)

/-- Replay of a two-element log fragment. -/
theorem replay_pair (a b : Tx) (w : String) :
    replay [a, b] w = (if a.user_id = w then signedAmount a else 0) +
      (if b.user_id = w then signedAmount b else 0) := by
  by_cases ha : a.user_id = w <;> by_cases hb : b.user_id = w <;> simp [replay, ha, hb]

/-- An app-level transfer preserves the database invariant. -/
theorem dbInv_send (db : WalletDatabase) (sid re : String) (amount : ℚ) (d t1 : String)
    (s1 : Nat) (t2 : String) (s2 : Nat) (hInv : DbInv db) :
    DbInv (WalletApp.send_money db sid re amount d t1 s1 t2 s2).db := by
  by_cases hc : (WalletApp.send_money db sid re amount d t1 s1 t2 s2).err? = none
  case neg =>
    rw [app_send_money_err_db db sid re amount d t1 s1 t2 s2 hc]
    exact hInv
  case pos =>
    by_cases ha : amount ≤ 0
    · exact absurd hc (by simp [WalletApp.send_money, ha])
    have hamt : 0 < amount := lt_of_not_le ha
    have hc' : (db.send_money sid re amount
        (if d = "" then "Money transfer" else d) t1 s1 t2 s2).err? = none := by
      simpa [WalletApp.send_money, ha] using hc
    have happ : (WalletApp.send_money db sid re amount d t1 s1 t2 s2).db =
        (db.send_money sid re amount
          (if d = "" then "Money transfer" else d) t1 s1 t2 s2).db := by
      simp [WalletApp.send_money, ha]
    rw [happ]
    obtain ⟨s, r, hs, hr, hsid, hre, hse, hbal, hTU, htx, -⟩ :=
      send_money_ok db sid re amount (if d = "" then "Money transfer" else d) t1 s1 t2 s2 hc'
    obtain ⟨h1, h2, h3, h4, h5, h6, h7, h8⟩ := hInv
    obtain ⟨smem, rmem⟩ := hTU.mem_src
    obtain ⟨hsr_id, hpt⟩ := hTU.pointwise h2
    have hmapeq := hTU.map_eq (fun v => v.id) rfl rfl
    have hrep : ∀ w : String,
        replay (db.send_money sid re amount
            (if d = "" then "Money transfer" else d) t1 s1 t2 s2).db.transactions w =
          replay db.transactions w +
            (if sid = w then -amount else 0) + (if r.id = w then amount else 0) := by
      intro w
      rw [htx, replay_append, replay_pair]
      by_cases hw1 : sid = w <;> by_cases hw2 : r.id = w <;>
        simp [hw1, hw2, signedAmount, pyFloat]
    refine ⟨?_, ?_, ?_, ?_, ?_, ?_, ?_, ?_⟩
    · intro v hv
      rcases hpt v hv with rfl | rfl | ⟨hvl, -, -⟩
      · simp only [decSub]
        exact sub_nonneg.mpr hbal
      · simp only [decAdd]
        exact add_nonneg (h1 r rmem) (le_of_lt hamt)
      · exact h1 v hvl
    · rw [hmapeq]
      exact h2
    · rw [hmapeq]
      exact h3
    · rw [hmapeq]
      exact h4
    · intro v hv
      rcases hpt v hv with rfl | rfl | ⟨hvl, hvs, hvr⟩
      · show s.balance.val - amount = seedBalance s.id + _
        rw [hrep s.id, if_pos hsid.symm, if_neg (fun h => hsr_id h.symm)]
        rw [h5 s smem]
        ring
      · show r.balance.val + amount = seedBalance r.id + _
        rw [hrep r.id, if_neg (fun h => hsr_id (hsid.trans h)), if_pos rfl]
        rw [h5 r rmem]
        ring
      · rw [hrep v.id, if_neg (fun h => hvs (hsid ▸ h.symm)), if_neg (fun h => hvr h.symm)]
        rw [h5 v hvl]
        ring
    · intro tx htx'
      rw [htx] at htx'
      rw [hmapeq]
      rcases List.mem_append.mp htx' with htx' | htx'
      · exact h6 tx htx'
      · rcases List.mem_cons.mp htx' with rfl | htx'
        · show sid ∈ _
          rw [← hsid]
          exact List.mem_map_of_mem _ smem
        · rw [List.mem_singleton.mp htx']
          exact List.mem_map_of_mem _ rmem
    · intro tx htx'
      rw [htx] at htx'
      rcases List.mem_append.mp htx' with htx' | htx'
      · exact h7 tx htx'
      · rcases List.mem_cons.mp htx' with rfl | htx'
        · exact ⟨hamt, rfl, rfl⟩
        · rw [List.mem_singleton.mp htx']
          exact ⟨hamt, rfl, rfl⟩
    · intro v hv
      rcases hpt v hv with rfl | rfl | ⟨hvl, -, -⟩
      · rfl
      · rfl
      · exact h8 v hvl

/-- One attempted operation with a fresh generated id preserves the
database invariant. -/
theorem dbInv_step (db : WalletDatabase) (op : Op) (hInv : DbInv db)
    (hf : FreshOk db op) : DbInv (execOp db op) := by
  cases op with
  | register e n i => exact dbInv_register db e n i hInv hf
  | deposit u a t s => exact dbInv_deposit db u a t s hInv
  | send sid re a d t1 s1 t2 s2 => exact dbInv_send db sid re a d t1 s1 t2 s2 hInv

/-- The seeded initial database satisfies the invariant. -/
theorem dbInv_init : DbInv initDb := by
  refine ⟨?_, ?_, ?_, ?_, ?_, ?_, ?_, ?_⟩
  · norm_num [initDb, aliceUser, bobUser, List.forall_mem_cons]
  · decide
  · decide
  · decide
  · norm_num [initDb, aliceUser, bobUser, seedBalance, replay, List.forall_mem_cons]
    rw [if_neg (by decide : ¬("2" : String) = "1")]
  · simp [initDb]
  · simp [initDb]
  · decide

/-- Every reachable database state satisfies the invariant. -/
theorem reachable_dbInv (db : WalletDatabase) (h : Reachable db) : DbInv db := by
  induction h with
  | init => exact dbInv_init
  | step op db' h' hf ih => exact dbInv_step db' op ih hf

/-- Registration never changes the sum of balances (a new account starts
at zero). -/
theorem register_user_total (db : WalletDatabase) (e n i : String) :
    totalBalance (db.register_user e n i).db = totalBalance db := by
  by_cases hc : db.users.any (fun u => u.email = e) <;>
    simp [WalletDatabase.register_user, hc, totalBalance]

/-- A successful transfer does not change the sum of balances. -/
theorem send_money_total (db : WalletDatabase) (sid re : String) (amount : ℚ)
    (d t1 : String) (s1 : Nat) (t2 : String) (s2 : Nat)
    (h : (db.send_money sid re amount d t1 s1 t2 s2).err? = none) :
    totalBalance (db.send_money sid re amount d t1 s1 t2 s2).db = totalBalance db := by
  obtain ⟨s, r, -, -, -, -, -, -, hTU, -, -⟩ :=
    send_money_ok db sid re amount d t1 s1 t2 s2 h
  have hsum := hTU.sum_map (fun u => u.balance.val)
  unfold totalBalance
  rw [hsum]
  simp only [decSub, decAdd]
  ring

/-- The app-level transfer never changes the sum of balances. -/
theorem app_send_money_total (db : WalletDatabase) (sid re : String) (amount : ℚ)
    (d t1 : String) (s1 : Nat) (t2 : String) (s2 : Nat) :
    totalBalance (WalletApp.send_money db sid re amount d t1 s1 t2 s2).db =
      totalBalance db := by
  by_cases hc : (WalletApp.send_money db sid re amount d t1 s1 t2 s2).err? = none
  · by_cases ha : amount ≤ 0
    · exact absurd hc (by simp [WalletApp.send_money, ha])
    · have hc' : (db.send_money sid re amount
          (if d = "" then "Money transfer" else d) t1 s1 t2 s2).err? = none := by
        simpa [WalletApp.send_money, ha] using hc
      have happ : (WalletApp.send_money db sid re amount d t1 s1 t2 s2).db =
          (db.send_money sid re amount
            (if d = "" then "Money transfer" else d) t1 s1 t2 s2).db := by
        simp [WalletApp.send_money, ha]
      rw [happ]
      exact send_money_total db sid re amount _ t1 s1 t2 s2 hc'
  · rw [app_send_money_err_db db sid re amount d t1 s1 t2 s2 hc]

/-- Replacing one element of the store changes the sum by the difference
at that element. -/
theorem sum_map_one_update (l₁ l₂ : List User) (u u' : User) (g : User → ℚ) :
    ((l₁ ++ u' :: l₂).map g).sum = ((l₁ ++ u :: l₂).map g).sum - g u + g u' := by
  simp only [List.map_append, List.map_cons, List.sum_append, List.sum_cons]
  ring

/-- The app-level deposit adds exactly its amount to the sum of balances
when it succeeds and nothing otherwise. -/
theorem app_add_money_total (db : WalletDatabase) (uid : String) (amount : ℚ)
    (txid : String) (ts : Nat) :
    totalBalance (WalletApp.add_money db uid amount txid ts).db = totalBalance db +
      (if (WalletApp.add_money db uid amount txid ts).err? = none then amount else 0) := by
  by_cases hc : (WalletApp.add_money db uid amount txid ts).err? = none
  case neg =>
    rw [app_add_money_err_db db uid amount txid ts hc, if_neg hc]
    ring
  case pos =>
    rw [if_pos hc]
    by_cases ha : amount ≤ 0
    · exact absurd hc (by simp [WalletApp.add_money, ha])
    have hc' : (db.add_money uid amount txid ts).err? = none := by
      simpa [WalletApp.add_money, ha] using hc
    have happ : (WalletApp.add_money db uid amount txid ts).db =
        (db.add_money uid amount txid ts).db := by
      simp [WalletApp.add_money, ha]
    rw [happ]
    obtain ⟨l₁, u, l₂, hl, -, -, hus, -, -⟩ := add_money_ok db uid amount txid ts hc'
    unfold totalBalance
    rw [hus, hl, sum_map_one_update l₁ l₂ u _ (fun u => u.balance.val)]
    simp only [decAdd]
    ring

/-- Effect of one attempted operation on the sum of balances. -/
theorem execOp_total (db : WalletDatabase) (op : Op) :
    totalBalance (execOp db op) = totalBalance db +
      (match op with
        | .deposit _ a _ _ => if opErr? db op = none then a else 0
        | _ => 0) := by
  cases op with
  | register e n i => simp [execOp, register_user_total]
  | deposit u a t s => simpa [execOp, opErr?] using app_add_money_total db u a t s
  | send sid re a d t1 s1 t2 s2 => simp [execOp, app_send_money_total]

/-- Conservation along a whole trace: the final sum of balances is the
initial sum plus the successful deposit amounts. -/
theorem trace_conservation :
    ∀ (ops : List Op) (db : WalletDatabase),
      totalBalance (execTrace db ops) = totalBalance db + depositSum db ops
  | [], db => by simp [execTrace, depositSum]
  | op :: ops, db => by
    show totalBalance (execTrace (execOp db op) ops) = _
    rw [trace_conservation ops (execOp db op), execOp_total]
    show _ = totalBalance db +
      ((match op with
        | Op.deposit _ a _ _ => if opErr? db op = none then a else 0
        | _ => 0) + depositSum (execOp db op) ops)
    ring

/-- Stable insertion produces a permutation of pushing the element on
front. -/
theorem insertTsDesc_perm (tx : Tx) : ∀ l : List Tx, List.Perm (insertTsDesc tx l) (tx :: l)
  | [] => List.Perm.refl _
  | y :: ys => by
    simp only [insertTsDesc]
    by_cases h : tx.timestamp ≤ y.timestamp
    · rw [if_pos h]
      exact ((insertTsDesc_perm tx ys).cons y).trans (List.Perm.swap tx y ys)
    · rw [if_neg h]

/-- Stable insertion keeps the list sorted by non-increasing timestamp. -/
theorem insertTsDesc_sorted (tx : Tx) :
    ∀ l : List Tx, SortedTsDesc l → SortedTsDesc (insertTsDesc tx l)
  | [], _ => by simp [insertTsDesc, SortedTsDesc]
  | y :: ys, h => by
    obtain ⟨hy, hys⟩ := List.pairwise_cons.mp h
    simp only [insertTsDesc]
    by_cases hle : tx.timestamp ≤ y.timestamp
    · rw [if_pos hle]
      refine List.pairwise_cons.mpr ⟨?_, insertTsDesc_sorted tx ys hys⟩
      intro z hz
      rcases List.mem_cons.mp ((insertTsDesc_perm tx ys).mem_iff.mp hz) with rfl | hz
      · exact hle
      · exact hy z hz
    · rw [if_neg hle]
      have hlt : y.timestamp ≤ tx.timestamp := le_of_lt (lt_of_not_le hle)
      refine List.pairwise_cons.mpr ⟨?_, h⟩
      intro z hz
      rcases List.mem_cons.mp hz with rfl | hz
      · exact hlt
      · exact le_trans (hy z hz) hlt

/-- Stability of the insertion: restricted to one timestamp value, the
inserted element lands at the very end, so insertion order is kept among
equal timestamps. -/
theorem insertTsDesc_filter (tx : Tx) (t : Nat) :
    ∀ l : List Tx, SortedTsDesc l →
      (insertTsDesc tx l).filter (fun v => v.timestamp = t) =
        l.filter (fun v => v.timestamp = t) ++ if tx.timestamp = t then [tx] else []
  | [], _ => by
    by_cases h : tx.timestamp = t <;> simp [insertTsDesc, h]
  | y :: ys, h => by
    obtain ⟨hy, hys⟩ := List.pairwise_cons.mp h
    simp only [insertTsDesc]
    by_cases hle : tx.timestamp ≤ y.timestamp
    · rw [if_pos hle]
      by_cases hyt : y.timestamp = t <;>
        simp [List.filter_cons, hyt, insertTsDesc_filter tx t ys hys]
    · rw [if_neg hle]
      have hlt : y.timestamp < tx.timestamp := lt_of_not_le hle
      by_cases htt : tx.timestamp = t
      · have hfil : (y :: ys).filter (fun v => v.timestamp = t) = [] := by
          rw [List.filter_eq_nil_iff]
          intro z hz
          simp only [decide_eq_true_eq]
          intro hzt
          rcases List.mem_cons.mp hz with rfl | hz
          · omega
          · have hzy := hy z hz
            omega
        simp [List.filter_cons, htt, hfil]
      · simp [List.filter_cons, htt]

/-- Invariants of the sorting fold: sortedness, per-timestamp stability,
and membership. -/
theorem sortTsDesc_aux :
    ∀ (l acc : List Tx), SortedTsDesc acc →
      SortedTsDesc (l.foldl (fun acc tx => insertTsDesc tx acc) acc) ∧
      (∀ t, (l.foldl (fun acc tx => insertTsDesc tx acc) acc).filter
          (fun v => v.timestamp = t) =
        acc.filter (fun v => v.timestamp = t) ++ l.filter (fun v => v.timestamp = t)) ∧
      (∀ v, v ∈ l.foldl (fun acc tx => insertTsDesc tx acc) acc ↔ v ∈ acc ∨ v ∈ l)
  | [], acc, h => by simp [h]
  | tx :: l, acc, h => by
    simp only [List.foldl_cons]
    obtain ⟨hs, hf, hm⟩ := sortTsDesc_aux l (insertTsDesc tx acc) (insertTsDesc_sorted tx acc h)
    refine ⟨hs, ?_, ?_⟩
    · intro t
      rw [hf t, insertTsDesc_filter tx t acc h]
      by_cases htt : tx.timestamp = t <;> simp [List.filter_cons, htt]
    · intro v
      rw [hm v]
      rw [(insertTsDesc_perm tx acc).mem_iff]
      simp only [List.mem_cons]
      tauto

/-- The history sort is sorted by non-increasing timestamp. -/
theorem sortTsDesc_sorted (l : List Tx) : SortedTsDesc (sortTsDesc l) :=
  (sortTsDesc_aux l [] List.Pairwise.nil).1

/-- The history sort is stable: restricted to one timestamp value it is
the original insertion order. -/
theorem sortTsDesc_filter (l : List Tx) (t : Nat) :
    (sortTsDesc l).filter (fun v => v.timestamp = t) =
      l.filter (fun v => v.timestamp = t) := by
  simpa using (sortTsDesc_aux l [] List.Pairwise.nil).2.1 t

/-- Membership in the history sort. -/
theorem mem_sortTsDesc (l : List Tx) (v : Tx) : v ∈ sortTsDesc l ↔ v ∈ l := by
  simpa using (sortTsDesc_aux l [] List.Pairwise.nil).2.2 v

/-- The sorting fold permutes the accumulator followed by the input. -/
theorem sortTsDesc_aux_perm :
    ∀ (l acc : List Tx), List.Perm (l.foldl (fun acc tx => insertTsDesc tx acc) acc) (acc ++ l)
  | [], acc => by simp
  | tx :: l, acc => by
    simp only [List.foldl_cons]
    refine (sortTsDesc_aux_perm l (insertTsDesc tx acc)).trans ?_
    refine List.Perm.trans ((insertTsDesc_perm tx acc).append_right l) ?_
    exact List.perm_middle.symm

/-- The history sort is a permutation of its input; in particular it
keeps every entry and the entry count. -/
theorem sortTsDesc_perm (l : List Tx) : List.Perm (sortTsDesc l) l := by
  simpa using sortTsDesc_aux_perm l []

/-- C1: in every reachable state all balances are non-negative; a
transfer that would drive the sender's balance negative (its other
preconditions holding) is rejected with the insufficiency error
(`"Insufficient balance"`, the spec's `InsufficientBalance`) and leaves
the database — balances and transaction log — unchanged; and every
rejected operation leaves the database unchanged. -/
theorem claim_C1 (db : WalletDatabase) (h : Reachable db) :
    (∀ u ∈ db.users, 0 ≤ u.balance.val) ∧
    (∀ (sid re : String) (amount : ℚ) (d t1 : String) (s1 : Nat) (t2 : String) (s2 : Nat)
        (s r : User),
      lastMatch (fun u => u.id = sid) db.users = some s →
      lastMatch (fun u => u.email = re) db.users = some r →
      s.email ≠ re → s.balance.val < amount →
      (WalletApp.send_money db sid re amount d t1 s1 t2 s2).err? =
          some "Insufficient balance" ∧
        (WalletApp.send_money db sid re amount d t1 s1 t2 s2).db = db) ∧
    (∀ op : Op, opErr? db op ≠ none → execOp db op = db) := by
  have hInv := reachable_dbInv db h
  refine ⟨hInv.1, ?_, fun op => op_err_no_change db op⟩
  intro sid re amount d t1 s1 t2 s2 s r hs0 hr0 hse hlt
  have hsmem := (lastMatch_mem _ _ _ hs0).1
  have hpos : ¬amount ≤ 0 := not_le.mpr (lt_of_le_of_lt (hInv.1 s hsmem) hlt)
  constructor <;>
    simp [WalletApp.send_money, hpos, WalletDatabase.send_money, hs0, hr0, hse, hlt]

/-- C1 witness: from the seeded state, sending 2000 from Alice (balance
1000) to Bob is rejected with the insufficiency error and has no
effect. -/
theorem claim_C1_witness :
    (WalletApp.send_money initDb "1" "bob@example.com" 2000 "" "a" 0 "b" 0).err? =
        some "Insufficient balance" ∧
      (WalletApp.send_money initDb "1" "bob@example.com" 2000 "" "a" 0 "b" 0).db = initDb :=
  (claim_C1 initDb .init).2.1 "1" "bob@example.com" 2000 "" "a" 0 "b" 0 aliceUser bobUser
    rfl rfl (by decide) (by norm_num [aliceUser])

/-- C2: a successful `send_money` preserves the sum of all balances, and
along any trace of attempted operations the final sum of balances equals
the starting sum plus the amounts of the successful deposits. -/
theorem claim_C2 :
    (∀ (db : WalletDatabase) (sid re : String) (amount : ℚ) (d t1 : String) (s1 : Nat)
        (t2 : String) (s2 : Nat),
      (db.send_money sid re amount d t1 s1 t2 s2).err? = none →
      totalBalance (db.send_money sid re amount d t1 s1 t2 s2).db = totalBalance db) ∧
    ∀ (ops : List Op) (db : WalletDatabase),
      totalBalance (execTrace db ops) = totalBalance db + depositSum db ops :=
  ⟨fun db sid re amount d t1 s1 t2 s2 h => send_money_total db sid re amount d t1 s1 t2 s2 h,
   fun ops db => trace_conservation ops db⟩

/-- C2 witness: the successful 200-unit transfer from Alice to Bob in the
seeded state keeps the sum of balances unchanged. -/
theorem claim_C2_witness :
    totalBalance (initDb.send_money "1" "bob@example.com" 200 "" "a" 1 "b" 2).db =
      totalBalance initDb :=
  claim_C2.1 initDb "1" "bob@example.com" 200 "" "a" 1 "b" 2 (by
    norm_num [WalletDatabase.send_money, lastMatch, initDb, aliceUser, bobUser, List.foldl,
      (show ("2" : String) ≠ "1" from by decide),
      (show ("alice@example.com" : String) ≠ "bob@example.com" from by decide)])

/-- C3: a deposit or transfer requested with a non-positive amount is
rejected by the dialog handlers with the `"Amount must be positive"`
error (the spec's `InvalidAmount`), producing no transaction and leaving
the database unchanged. -/
theorem claim_C3 (db : WalletDatabase) (uid re : String) (amount : ℚ) (txid : String)
    (ts : Nat) (d t1 : String) (s1 : Nat) (t2 : String) (s2 : Nat) (h : amount ≤ 0) :
    ((WalletApp.add_money db uid amount txid ts).err? = some "Amount must be positive" ∧
      (WalletApp.add_money db uid amount txid ts).tx? = none ∧
      (WalletApp.add_money db uid amount txid ts).db = db) ∧
    ((WalletApp.send_money db uid re amount d t1 s1 t2 s2).err? =
        some "Amount must be positive" ∧
      (WalletApp.send_money db uid re amount d t1 s1 t2 s2).tx? = none ∧
      (WalletApp.send_money db uid re amount d t1 s1 t2 s2).db = db) := by
  constructor <;> exact ⟨by simp [WalletApp.add_money, WalletApp.send_money, h],
    by simp [WalletApp.add_money, WalletApp.send_money, h],
    by simp [WalletApp.add_money, WalletApp.send_money, h]⟩

/-- C3 witness: depositing or sending −5 from the seeded state is
rejected with the positivity error and has no effect. -/
theorem claim_C3_witness :
    ((WalletApp.add_money initDb "1" (-5) "t" 0).err? = some "Amount must be positive" ∧
      (WalletApp.add_money initDb "1" (-5) "t" 0).tx? = none ∧
      (WalletApp.add_money initDb "1" (-5) "t" 0).db = initDb) ∧
    ((WalletApp.send_money initDb "1" "bob@example.com" (-5) "" "a" 0 "b" 0).err? =
        some "Amount must be positive" ∧
      (WalletApp.send_money initDb "1" "bob@example.com" (-5) "" "a" 0 "b" 0).tx? = none ∧
      (WalletApp.send_money initDb "1" "bob@example.com" (-5) "" "a" 0 "b" 0).db = initDb) :=
  claim_C3 initDb "1" "bob@example.com" (-5) "t" 0 "" "a" 0 "b" 0 (by norm_num)

/-- C4: the transfer checks run in the specification's order — amount
positive, sender exists, recipient resolves, no self-transfer, balance
sufficient — the first failing check fixes the reported error
(`expectedSendError` states that order in the spec's words), and a
failing transfer leaves the database unchanged. -/
theorem claim_C4 (db : WalletDatabase) (sid re : String) (amount : ℚ) (d t1 : String)
    (s1 : Nat) (t2 : String) (s2 : Nat) :
    (WalletApp.send_money db sid re amount d t1 s1 t2 s2).err? =
      expectedSendError db sid re amount ∧
    ((WalletApp.send_money db sid re amount d t1 s1 t2 s2).err? ≠ none →
      (WalletApp.send_money db sid re amount d t1 s1 t2 s2).db = db) := by
  refine ⟨?_, app_send_money_err_db db sid re amount d t1 s1 t2 s2⟩
  by_cases ha : amount ≤ 0
  · simp [WalletApp.send_money, expectedSendError, ha]
  · simp only [WalletApp.send_money, if_neg ha, expectedSendError]
    rw [← lastMatch_eq_getLast?_filter, ← lastMatch_eq_getLast?_filter]
    cases hs : lastMatch (fun u => u.id = sid) db.users with
    | none => simp [WalletDatabase.send_money, hs]
    | some s =>
      cases hr : lastMatch (fun u => u.email = re) db.users with
      | none => simp [WalletDatabase.send_money, hs, hr]
      | some r =>
        by_cases hse : s.email = re
        · simp [WalletDatabase.send_money, hs, hr, hse]
        · by_cases hb : s.balance.val < amount <;>
            simp [WalletDatabase.send_money, hs, hr, hse, hb]

/-- C4 witness: a transfer from an unknown sender id reports exactly the
error the specification's check order prescribes, and has no effect. -/
theorem claim_C4_witness :
    (WalletApp.send_money initDb "9" "bob@example.com" 5 "" "a" 0 "b" 0).err? =
        expectedSendError initDb "9" "bob@example.com" 5 ∧
      (WalletApp.send_money initDb "9" "bob@example.com" 5 "" "a" 0 "b" 0).db = initDb :=
  ⟨(claim_C4 initDb "9" "bob@example.com" 5 "" "a" 0 "b" 0).1,
   (claim_C4 initDb "9" "bob@example.com" 5 "" "a" 0 "b" 0).2 (by
     norm_num [WalletApp.send_money, WalletDatabase.send_money, lastMatch, initDb,
       aliceUser, bobUser, List.foldl,
       (show ("1" : String) ≠ "9" from by decide),
       (show ("2" : String) ≠ "9" from by decide)]
     decide)⟩

/-- C5 counterexample: the seeded account `"1"` (Alice) is a committed
state of balance 1000.00 with an empty transaction log, so replaying its
log entries yields 0, not its balance — reconstruction fails as stated
for the pre-seeded accounts. -/
theorem claim_C5_counterexample :
    Reachable initDb ∧ (initDb.get_balance "1").val = 1000 ∧
      replay initDb.transactions "1" = 0 ∧ (1000 : ℚ) ≠ 0 :=
  ⟨.init, rfl, by simp [replay, initDb], by norm_num⟩

/-- C5 amended: in every reachable state, every account's balance equals
its creation-time (seeded) balance plus the signed replay of its log
entries; for accounts created through `register_user` the seeded balance
is 0, so replay alone reproduces the balance exactly. -/
theorem claim_C5 (db : WalletDatabase) (h : Reachable db) :
    ∀ u ∈ db.users, u.balance.val = seedBalance u.id + replay db.transactions u.id :=
  (reachable_dbInv db h).2.2.2.2.1

/-- C5 witness: in the seeded initial state Alice's balance equals her
seeded balance plus the (empty) replay. -/
theorem claim_C5_witness :
    aliceUser.balance.val = seedBalance aliceUser.id + replay initDb.transactions aliceUser.id :=
  claim_C5 initDb .init aliceUser (by simp [initDb])

/-- C6 counterexample: a committed deposit of 50 stores its log entry's
`amount` (and `balance_after`) through `float(...)` — as binary floating
point, not as a decimal — refuting the claim that stored amounts are
never binary floating point. -/
theorem claim_C6_counterexample :
    (WalletApp.add_money initDb "1" 50 "t1" 0).err? = none ∧
      ((WalletApp.add_money initDb "1" 50 "t1" 0).db.transactions.map
        (fun tx => tx.amount.rep)) = [NumRepr.binaryFloat] ∧
      ((WalletApp.add_money initDb "1" 50 "t1" 0).db.transactions.map
        (fun tx => tx.balance_after.rep)) = [NumRepr.binaryFloat] := by
  refine ⟨?_, ?_, ?_⟩ <;>
    norm_num [WalletApp.add_money, WalletDatabase.add_money, addFirst, initDb,
      aliceUser, bobUser, pyFloat]

/-- C6 amended: in every reachable state every stored log entry carries a
positive amount (direction lives in the entry's kind), account balances
keep exact decimal representation, but the log's `amount` and
`balance_after` fields are stored as binary floats. -/
theorem claim_C6 (db : WalletDatabase) (h : Reachable db) :
    (∀ tx ∈ db.transactions, 0 < tx.amount.val ∧ tx.amount.rep = .binaryFloat ∧
      tx.balance_after.rep = .binaryFloat) ∧
    ∀ u ∈ db.users, u.balance.rep = .decimal :=
  ⟨(reachable_dbInv db h).2.2.2.2.2.2.1, (reachable_dbInv db h).2.2.2.2.2.2.2⟩

/-- C6 witness: the state after depositing 50 to Alice is reachable; its
single log entry has a positive amount and float-tagged numeric fields,
and Bob's untouched balance is still decimal-tagged. -/
theorem claim_C6_witness :
    (0 < (pyFloat 50).val ∧ (pyFloat 50).rep = NumRepr.binaryFloat ∧
      (pyFloat 1050).rep = NumRepr.binaryFloat) ∧
    bobUser.balance.rep = NumRepr.decimal :=
  ⟨(claim_C6 _ (Reachable.step (Op.deposit "1" 50 "t1" 0) initDb .init trivial)).1
      ⟨"t1", "1", "credit", pyFloat 50, "Added money to wallet", none, none, 0, pyFloat 1050⟩
      (by norm_num [execOp, WalletApp.add_money, WalletDatabase.add_money, addFirst,
        initDb, aliceUser, bobUser, pyFloat]),
   (claim_C6 _ (Reachable.step (Op.deposit "1" 50 "t1" 0) initDb .init trivial)).2
      bobUser
      (by norm_num [execOp, WalletApp.add_money, WalletDatabase.add_money, addFirst,
        initDb, aliceUser, bobUser])⟩

/-- C7 amended: the history query returns exactly the requested
account's log entries, newest timestamp first, truncated to `limit`:
every returned entry is one of the account's log entries; the result
holds `min limit n` entries where `n` is the account's entry count; the
result is sorted by non-increasing timestamp; any account entry left out
means the result is already full with `limit` entries all at least as
new; and among entries of equal timestamp the log's insertion order is
kept with the earlier-inserted entry first (as a prefix of the log
restricted to that timestamp) — not the later-inserted entry first, as
claimed. -/
theorem claim_C7 (db : WalletDatabase) (uid : String) (limit : Nat) :
    (∀ tx ∈ db.get_transactions uid limit, tx ∈ db.transactions ∧ tx.user_id = uid) ∧
    (db.get_transactions uid limit).length =
      min limit (db.transactions.filter (fun tx => tx.user_id = uid)).length ∧
    List.Pairwise (fun a b => b.timestamp ≤ a.timestamp) (db.get_transactions uid limit) ∧
    (∀ tx ∈ db.transactions, tx.user_id = uid → tx ∉ db.get_transactions uid limit →
      (db.get_transactions uid limit).length = limit ∧
      ∀ y ∈ db.get_transactions uid limit, tx.timestamp ≤ y.timestamp) ∧
    ∀ t : Nat, ∃ rest,
      (db.get_transactions uid limit).filter (fun v => v.timestamp = t) ++ rest =
        (db.transactions.filter (fun tx => tx.user_id = uid)).filter
          (fun v => v.timestamp = t) := by
  simp only [WalletDatabase.get_transactions]
  refine ⟨?_, ?_, ?_, ?_, ?_⟩
  · intro tx htx
    have h1 : tx ∈ sortTsDesc (db.transactions.filter (fun tx => tx.user_id = uid)) :=
      (List.take_sublist _ _).mem htx
    have h2 := (mem_sortTsDesc _ tx).mp h1
    exact ⟨(List.mem_filter.mp h2).1, by simpa using (List.mem_filter.mp h2).2⟩
  · rw [List.length_take,
      (sortTsDesc_perm (db.transactions.filter (fun tx => tx.user_id = uid))).length_eq]
  · exact List.Pairwise.sublist (List.take_sublist _ _) (sortTsDesc_sorted _)
  · intro tx hmem huid hnot
    have htx_fl : tx ∈ db.transactions.filter (fun tx => tx.user_id = uid) :=
      List.mem_filter.mpr ⟨hmem, by simp [huid]⟩
    have htx_S : tx ∈ sortTsDesc (db.transactions.filter (fun tx => tx.user_id = uid)) :=
      (mem_sortTsDesc _ tx).mpr htx_fl
    have hlt : limit <
        (sortTsDesc (db.transactions.filter (fun tx => tx.user_id = uid))).length := by
      by_contra hle
      push_neg at hle
      rw [List.take_of_length_le hle] at hnot
      exact hnot htx_S
    refine ⟨by rw [List.length_take]; exact Nat.min_eq_left (le_of_lt hlt), ?_⟩
    intro y hy
    have hsplit : sortTsDesc (db.transactions.filter (fun tx => tx.user_id = uid)) =
        (sortTsDesc (db.transactions.filter (fun tx => tx.user_id = uid))).take limit ++
          (sortTsDesc (db.transactions.filter (fun tx => tx.user_id = uid))).drop limit :=
      (List.take_append_drop limit _).symm
    have hsorted := sortTsDesc_sorted (db.transactions.filter (fun tx => tx.user_id = uid))
    rw [hsplit] at hsorted
    have hcross := (List.pairwise_append.mp hsorted).2.2
    have htx_drop : tx ∈
        (sortTsDesc (db.transactions.filter (fun tx => tx.user_id = uid))).drop limit := by
      rcases List.mem_append.mp (hsplit ▸ htx_S) with h | h
      · exact absurd h hnot
      · exact h
    exact hcross y hy tx htx_drop
  · intro t
    refine ⟨((sortTsDesc (db.transactions.filter (fun tx => tx.user_id = uid))).drop
      limit).filter (fun v => v.timestamp = t), ?_⟩
    rw [← List.filter_append, List.take_append_drop, sortTsDesc_filter]

/-- C7 counterexample: two committed deposits to Alice that share a
timestamp come back from the history query in insertion order — the
earlier-inserted entry first — contradicting the claimed
later-inserted-first tie-breaking. -/
theorem claim_C7_counterexample :
    ((execTrace initDb [Op.deposit "1" 5 "ta" 100, Op.deposit "1" 7 "tb" 100]).transactions.map
        (fun tx => (tx.id, tx.timestamp))) = [("ta", 100), ("tb", 100)] ∧
    ((execTrace initDb [Op.deposit "1" 5 "ta" 100,
        Op.deposit "1" 7 "tb" 100]).get_transactions "1" 10).map (fun tx => tx.id) =
      ["ta", "tb"] ∧
    ((execTrace initDb [Op.deposit "1" 5 "ta" 100,
        Op.deposit "1" 7 "tb" 100]).get_transactions "1" 10).map (fun tx => tx.id) ≠
      ["tb", "ta"] := by
  refine ⟨?_, ?_, ?_⟩
  · norm_num [execTrace, execOp, WalletApp.add_money, WalletDatabase.add_money, addFirst,
      initDb, aliceUser, bobUser, pyFloat]
  · norm_num [execTrace, execOp, WalletApp.add_money, WalletDatabase.add_money, addFirst,
      WalletDatabase.get_transactions, sortTsDesc, insertTsDesc, initDb, aliceUser,
      bobUser, pyFloat, List.foldl, List.filter]
  · norm_num [execTrace, execOp, WalletApp.add_money, WalletDatabase.add_money, addFirst,
      WalletDatabase.get_transactions, sortTsDesc, insertTsDesc, initDb, aliceUser,
      bobUser, pyFloat, List.foldl, List.filter]
    decide

/-- C8: every successful transfer appends exactly two entries created
together — a `transfer_out` entry for the sender and a `transfer_in`
entry for the recipient, with equal amounts and each carrying the other
party's address — while deposits append only single `credit` entries
without counterparty fields and registration appends nothing, so
transfer entries are never created independently. -/
theorem claim_C8 :
    (∀ (db : WalletDatabase) (sid re : String) (amount : ℚ) (d t1 : String) (s1 : Nat)
        (t2 : String) (s2 : Nat),
      (db.send_money sid re amount d t1 s1 t2 s2).err? = none →
      ∃ s r stx rtx, s ∈ db.users ∧ r ∈ db.users ∧ s.id = sid ∧ r.email = re ∧
        (db.send_money sid re amount d t1 s1 t2 s2).db.transactions =
          db.transactions ++ [stx, rtx] ∧
        stx.type = "transfer_out" ∧ rtx.type = "transfer_in" ∧
        stx.amount = rtx.amount ∧ stx.amount.val = amount ∧
        stx.user_id = s.id ∧ rtx.user_id = r.id ∧
        stx.recipient_email = some r.email ∧ rtx.sender_email = some s.email) ∧
    (∀ (db : WalletDatabase) (uid : String) (amount : ℚ) (txid : String) (ts : Nat),
      ∀ tx ∈ (WalletApp.add_money db uid amount txid ts).db.transactions,
        tx ∈ db.transactions ∨
          (tx.type = "credit" ∧ tx.recipient_email = none ∧ tx.sender_email = none)) ∧
    ∀ (db : WalletDatabase) (e n i : String),
      (db.register_user e n i).db.transactions = db.transactions := by
  refine ⟨?_, ?_, ?_⟩
  · intro db sid re amount d t1 s1 t2 s2 h
    obtain ⟨s, r, hs, hr, hsid, hre, -, -, -, htx, -⟩ :=
      send_money_ok db sid re amount d t1 s1 t2 s2 h
    exact ⟨s, r, _, _, (lastMatch_mem _ _ _ hs).1, (lastMatch_mem _ _ _ hr).1, hsid, hre,
      htx, rfl, rfl, rfl, rfl, hsid.symm, rfl, by rw [hre], rfl⟩
  · intro db uid amount txid ts tx htx
    by_cases ha : amount ≤ 0
    · exact .inl (by simpa [WalletApp.add_money, ha] using htx)
    · have happ : (WalletApp.add_money db uid amount txid ts) =
          db.add_money uid amount txid ts := by
        simp [WalletApp.add_money, ha]
      rw [happ] at htx
      by_cases hc : (db.add_money uid amount txid ts).err? = none
      · obtain ⟨l₁, u, l₂, -, -, -, -, htxs, -⟩ := add_money_ok db uid amount txid ts hc
        rw [htxs] at htx
        rcases List.mem_append.mp htx with htx | htx
        · exact .inl htx
        · refine .inr ?_
          rw [List.mem_singleton.mp htx]
          exact ⟨rfl, rfl, rfl⟩
      · rw [add_money_err_db db uid amount txid ts hc] at htx
        exact .inl htx
  · intro db e n i
    by_cases hc : (db.register_user e n i).err? = none
    · exact (register_user_ok db e n i hc).2.2
    · rw [register_user_err_db db e n i hc]

/-- C8 witness: the successful 200-unit transfer from Alice to Bob in the
seeded state appends exactly the paired `transfer_out` / `transfer_in`
entries. -/
theorem claim_C8_witness :
    ∃ s r stx rtx, s ∈ initDb.users ∧ r ∈ initDb.users ∧ s.id = "1" ∧
      r.email = "bob@example.com" ∧
      (initDb.send_money "1" "bob@example.com" 200 "" "a" 1 "b" 2).db.transactions =
        initDb.transactions ++ [stx, rtx] ∧
      stx.type = "transfer_out" ∧ rtx.type = "transfer_in" ∧
      stx.amount = rtx.amount ∧ stx.amount.val = 200 ∧
      stx.user_id = s.id ∧ rtx.user_id = r.id ∧
      stx.recipient_email = some r.email ∧ rtx.sender_email = some s.email :=
  claim_C8.1 initDb "1" "bob@example.com" 200 "" "a" 1 "b" 2 (by
    norm_num [WalletDatabase.send_money, lastMatch, initDb, aliceUser, bobUser, List.foldl,
      (show ("2" : String) ≠ "1" from by decide),
      (show ("alice@example.com" : String) ≠ "bob@example.com" from by decide)])

/-- C9 counterexample: for the id `"999"`, which belongs to no account of
the seeded state, the history query reports no `AccountNotFound` failure
— it just returns the empty list. -/
theorem claim_C9_counterexample :
    (initDb.users.map (fun u => u.id)) = ["1", "2"] ∧
      initDb.get_transactions "999" 10 = [] := by decide

/-- C9 amended: in every reachable state, querying the history of an id
that belongs to no account yields the empty list (the code has no error
path in `get_transactions`). -/
theorem claim_C9 (db : WalletDatabase) (uid : String) (limit : Nat) (h : Reachable db)
    (hu : ∀ u ∈ db.users, u.id ≠ uid) :
    db.get_transactions uid limit = [] := by
  have h6 := (reachable_dbInv db h).2.2.2.2.2.1
  have hfil : db.transactions.filter (fun tx => tx.user_id = uid) = [] := by
    rw [List.filter_eq_nil_iff]
    intro tx htx
    simp only [decide_eq_true_eq]
    intro he
    obtain ⟨u, hmem, huid⟩ := List.mem_map.mp (h6 tx htx)
    exact hu u hmem (by rw [huid, he])
  simp [WalletDatabase.get_transactions, hfil, sortTsDesc]

/-- C9 witness: in the seeded state the unknown id `"999"` yields the
empty history. -/
theorem claim_C9_witness : initDb.get_transactions "999" 10 = [] :=
  claim_C9 initDb "999" 10 .init (by decide)

/-- C10: for an id that belongs to no account, `get_balance` returns
`Decimal('0.00')` instead of an error, and for a stored account it
returns that account's balance — so a missing account is
indistinguishable from a zero-balance account through this query. -/
theorem claim_C10 (db : WalletDatabase) (uid : String) :
    ((∀ u ∈ db.users, u.id ≠ uid) → db.get_balance uid = ⟨0, .decimal⟩) ∧
    ∀ u, db.users.find? (fun v => v.id = uid) = some u →
      db.get_balance uid = u.balance := by
  constructor
  · intro hu
    have hf : db.users.find? (fun v => v.id = uid) = none := by
      rw [List.find?_eq_none]
      intro u hmem
      simp [hu u hmem]
    simp [WalletDatabase.get_balance, hf]
  · intro u hf
    simp [WalletDatabase.get_balance, hf]

/-- C10 witness: the unknown id `"999"` reads back balance
`Decimal('0.00')` from the seeded state. -/
theorem claim_C10_witness : initDb.get_balance "999" = ⟨0, NumRepr.decimal⟩ :=
  (claim_C10 initDb "999").1 (by decide)
